import Mathlib

/-!
Verification of the cli-viz terminal audio visualizer (main.py,
visualizer_base.py) against its natural-language specification.

The development has two parts:

* a control-flow model of one iteration of the render loop
  TerminalAudioVisualizer.run (main.py lines 148-201), over exact
  rationals for the scalar state and with observable effects recorded in
  a trace, and

* a numeric model of TerminalAudioVisualizer.get_audio_data
  (main.py lines 79-97) over the real numbers, with the discrete Fourier
  transform written out as the complex exponential sum that np.fft.fft
  computes.

Every finite Python float is a rational number, so float state is
carried as exact rationals; the sensitivity updates, whose claims
depend on rounding, are performed in a bit-exact integer model of
IEEE-754 binary64 rounding (round to nearest, ties to even). The audio
analysis, whose claims are structural, is idealized over the real
numbers; int16 samples are modelled as real numbers.
-/

/-! ## Control model of the render loop -/

/-- A loaded visualizer plugin, as the render loop sees it in one frame:
its name, the outcome of this frame's draw call (ok, or an exception
carrying a message), and its handle_keypress method, which may raise and
whose normal return value (a Bool in visualizer_base.py, here an
arbitrary Nat code) the loop never reads. -/
structure Visualizer where
  name : String
  draw : Except String Unit
  handle_keypress : String → Except String Nat

/-- The scalar state of TerminalAudioVisualizer that the loop body reads
and writes: pause flag, sensitivity multiplier, current visualizer
index, and hue offset (main.py lines 24, 34, 38, 42). -/
structure LoopState where
  pause : Bool
  sensitivity : ℚ
  idx : Nat
  hue : ℚ
deriving DecidableEq, Repr

/-- The state set up by TerminalAudioVisualizer.__init__
(main.py lines 18-53): pause False, sensitivity 1.0, index 0,
hue_offset 0. -/
def initState : LoopState :=
  { pause := false, sensitivity := 1, idx := 0, hue := 0 }

/-- Observable actions of one loop iteration, in order of occurrence:
polling stdscr.getkey, offering a key to the active visualizer's
handle_keypress, reading an audio block from the stream (inside
get_audio_data), erasing the screen, drawing the info line, calling the
active visualizer's draw, refreshing, sleeping. -/
inductive Effect where
  | pollKey
  | forwardKey (key : String)
  | captureBlock
  | clearScreen
  | drawInfo
  | draw
  | refresh
  | sleep
deriving DecidableEq, Repr

/-- Result of the key-handling block (main.py lines 151-168): either the
break on 'q', or the loop continues with an updated state. Exceptions
inside the block are swallowed by its bare except. -/
inductive KeyOutcome where
  | quit
  | next (st : LoopState)
deriving DecidableEq, Repr

/-- Result of one whole loop iteration: continue with a new state, exit
the loop normally via break (then the finally block cleans up and run
returns), or die on an exception that nothing catches (it propagates out
of the while loop; the finally block cleans up and the session
terminates with that exception). -/
inductive IterResult where
  | next (st : LoopState)
  | quit
  | crashed (e : String)
deriving DecidableEq, Repr

/-- Advance of the visualizer index on the 'm' key
(main.py line 156): (i + 1) % n. -/
def cycle (n i : Nat) : Nat := (i + 1) % n

/-- The keys the render loop handles itself (main.py lines 153-162):
quit, mode cycle, pause toggle, sensitivity up ('+' and its unshifted
'=' variant), sensitivity down. -/
def globalKeys : List String := ["q", "m", " ", "+", "=", "-"]

/-! ## Bit-exact model of IEEE-754 binary64 arithmetic

The sensitivity is a Python float, an IEEE-754 binary64 value. Every
finite binary64 value is a rational number, and each arithmetic
operation rounds its exact rational result to the nearest representable
value, ties to even. The functions below round an exact rational to 53
significant bits using only integer arithmetic; overflow and subnormals
are ignored, which is faithful for every magnitude the sensitivity can
take. Python's float literal 0.1 (the value of sensitivity_step,
main.py line 35) likewise denotes the binary64 value nearest 1/10. -/

/-- Floor of the base-2 logarithm of a positive natural number, by fuel
recursion (the fuel argument only bounds the recursion depth). -/
def log2F : Nat → Nat → Nat
  | 0, _ => 0
  | fuel + 1, n => if n < 2 then 0 else log2F fuel (n / 2) + 1

/-- Floor of the base-2 logarithm of a positive natural number. -/
def natLog2 (n : Nat) : Nat := log2F n n

/-- Whether the positive rational n/d is at least 2^s. -/
def gePow2 (n d : Nat) : Int → Bool
  | .ofNat k => Nat.ble (d * 2 ^ k) n
  | .negSucc k => Nat.ble d (n * 2 ^ (k + 1))

/-- Floor of the base-2 logarithm of the positive rational n/d. -/
def floorLog2Q (n d : Nat) : Int :=
  let s0 : Int := (natLog2 n : Int) - (natLog2 d : Int)
  cond (gePow2 n d s0) s0 (s0 - 1)

/-- The rational value of the dyadic number m * 2^e. -/
def dyadicToRat (m : Int) : Int → ℚ
  | .ofNat k => mkRat (m * 2 ^ k) 1
  | .negSucc k => mkRat m (2 ^ (k + 1))

/-- Round the positive rational n/d to 53 significant bits (nearest,
ties to even): the result is the pair (m, e) with value m * 2^e, where
m is the rounded significand scaled into [2^52, 2^53]. -/
def roundPosD (n d : Nat) : Int × Int :=
  let s := floorLog2Q n d
  let shift : Int := 52 - s
  let num := match shift with
    | .ofNat k => n * 2 ^ k
    | .negSucc _ => n
  let den := match shift with
    | .ofNat _ => d
    | .negSucc k => d * 2 ^ (k + 1)
  let qt : Nat := num / den
  let rem : Nat := num % den
  let m : Nat := cond (Nat.blt den (2 * rem)) (qt + 1)
    (cond (Nat.blt (2 * rem) den) qt (cond (qt % 2 == 0) qt (qt + 1)))
  (Int.ofNat m, s - 52)

/-- Round the rational num/den to the nearest binary64 value. -/
def roundQ (num : Int) (den : Nat) : ℚ :=
  match num with
  | .ofNat 0 => 0
  | .ofNat (k + 1) =>
    dyadicToRat (roundPosD (k + 1) den).1 (roundPosD (k + 1) den).2
  | .negSucc k =>
    dyadicToRat (-(roundPosD (k + 1) den).1) (roundPosD (k + 1) den).2

/-- Binary64 addition: the exact rational sum, rounded. -/
def fadd (a b : ℚ) : ℚ := roundQ (a.num * b.den + b.num * a.den) (a.den * b.den)

/-- Binary64 subtraction: the exact rational difference, rounded. -/
def fsub (a b : ℚ) : ℚ := roundQ (a.num * b.den - b.num * a.den) (a.den * b.den)

/-- The binary64 value denoted by the Python literal 0.1
(self.sensitivity_step, main.py line 35): the double nearest 1/10. -/
def dbl01 : ℚ := roundQ 1 10

/-- Python's max on two floats: an exact comparison, no rounding. -/
def fmax (a b : ℚ) : ℚ := if a.num * b.den ≤ b.num * a.den then b else a

/-- The sensitivity update of the '+' and '=' keys (main.py line 160):
sensitivity += 0.1 in binary64 arithmetic. -/
def incSens (q : ℚ) : ℚ := fadd q dbl01

/-- The sensitivity update of the '-' key (main.py line 162):
max(0.1, sensitivity - 0.1) in binary64 arithmetic. -/
def decSens (q : ℚ) : ℚ := fmax dbl01 (fsub q dbl01)

/-- The key-handling block, main.py lines 151-168.  The whole block sits
in a try with a bare except: pass, so a getkey with no input pending
(key? = none), the ZeroDivisionError of (i+1) % 0 when the visualizer
list is empty, the IndexError of indexing an empty list, and any
exception out of handle_keypress all leave the state unchanged and the
iteration alive.  The handler's return value is never bound. -/
def keyPhase (vis : List Visualizer) (st : LoopState) (key? : Option String) :
    KeyOutcome × List Effect :=
  match key? with
  | none => (.next st, [.pollKey])
  | some key =>
    if key = "q" then (.quit, [.pollKey])
    else if key = "m" then
      if vis.length = 0 then (.next st, [.pollKey])
      else (.next { st with idx := cycle vis.length st.idx }, [.pollKey])
    else if key = " " then (.next { st with pause := !st.pause }, [.pollKey])
    else if key = "+" ∨ key = "=" then
      (.next { st with sensitivity := incSens st.sensitivity }, [.pollKey])
    else if key = "-" then
      (.next { st with sensitivity := decSens st.sensitivity }, [.pollKey])
    else
      match vis.get? st.idx with
      | none => (.next st, [.pollKey])
      | some v =>
        match v.handle_keypress key with
        | .error _ => (.next st, [.pollKey, .forwardKey key])
        | .ok _ => (.next st, [.pollKey, .forwardKey key])

/-- Python's x % 1.0 for the hue update: the fractional part. -/
def pyMod1 (q : ℚ) : ℚ := q - q.floor

/-- The unpaused frame body, main.py lines 170-196: read audio
(capture), erase the screen, advance the hue, look up the active
visualizer (an out-of-range index raises IndexError, which nothing
catches), draw the info line, call its draw (an exception out of draw is
likewise uncaught), refresh, sleep. -/
def framePhase (vis : List Visualizer) (st : LoopState) : IterResult × List Effect :=
  let st1 := { st with hue := pyMod1 (st.hue + 1/200) }
  match vis.get? st1.idx with
  | none => (.crashed "IndexError", [.captureBlock, .clearScreen])
  | some v =>
    match v.draw with
    | .error e => (.crashed e, [.captureBlock, .clearScreen, .drawInfo, .draw])
    | .ok _ =>
      (.next st1, [.captureBlock, .clearScreen, .drawInfo, .draw, .refresh, .sleep])

/-- One iteration of the while loop (main.py lines 149-196): the
key-handling block, then — only when the (possibly just toggled) pause
flag is off — the frame body. -/
def loopIter (vis : List Visualizer) (st : LoopState) (key? : Option String) :
    IterResult × List Effect :=
  match keyPhase vis st key? with
  | (.quit, eff) => (.quit, eff)
  | (.next st', eff) =>
    if st'.pause then (.next st', eff)
    else
      let (r, feff) := framePhase vis st'
      (r, eff ++ feff)

/-- The state the key-handling block leaves behind when the loop is not
exited (used to iterate key presses; on quit the state is returned
unchanged). -/
def afterKey (vis : List Visualizer) (st : LoopState) (key : String) : LoopState :=
  match (keyPhase vis st (some key)).1 with
  | .quit => st
  | .next st' => st'

/-- Startup outcome of TerminalAudioVisualizer.__init__: it stores the
list returned by load_visualizers and the initial scalar state.
load_visualizers (main.py lines 55-77) merely prints a warning when the
list is empty; __init__ raises nothing on that account, so startup
always succeeds with whatever list was loaded. -/
inductive StartupResult where
  | started (vis : List Visualizer) (st : LoopState)

/-- TerminalAudioVisualizer.__init__ (main.py lines 18-53), given the
visualizers that loaded successfully. -/
def initVisualizer (loaded : List Visualizer) : StartupResult :=
  .started loaded initState

/-- A sample well-behaved visualizer: draw succeeds, key handler
returns normally. -/
def visOk : Visualizer :=
  { name := "bars", draw := .ok (), handle_keypress := fun _ => .ok 0 }

/-- A sample faulty visualizer whose draw raises. -/
def visBadDraw : Visualizer :=
  { name := "flame", draw := .error "boom", handle_keypress := fun _ => .ok 0 }

/-- A sample visualizer whose key handler raises. -/
def visBadKeys : Visualizer :=
  { name := "wave", draw := .ok (), handle_keypress := fun _ => .error "keyboom" }

/-! ## Numeric model of get_audio_data -/

open Complex in
/-- The k-th coefficient of the discrete Fourier transform that
np.fft.fft computes on a block of N real samples:
X[k] = sum over n of x[n] * exp(-2 pi i k n / N). -/
noncomputable def dftCoeff (data : List ℝ) (k : Nat) : ℂ :=
  ∑ n ∈ Finset.range data.length,
    (data.getD n 0 : ℂ) *
      Complex.exp (-(2 * Real.pi * Complex.I * k * n) / data.length)

/-- self.CHUNK = 1024 * 2 (main.py line 20). -/
def CHUNK : Nat := 1024 * 2

/-- self.smoothing = 0.8 (main.py line 30). -/
noncomputable def smoothing : ℝ := 0.8

/-- np.abs(np.fft.fft(data)[:CHUNK // 2]) / (128 * CHUNK)
(main.py lines 84 and 87): the magnitudes of the first CHUNK/2 DFT
coefficients, divided by 128 * CHUNK. -/
noncomputable def rawSpectrum (data : List ℝ) : List ℝ :=
  (List.range (CHUNK / 2)).map fun k =>
    Complex.abs (dftCoeff data k) / (128 * CHUNK)

/-- The numeric state that get_audio_data reads and writes: the smoothed
spectrum carried between frames, the sensitivity multiplier, and the
energy scalar (main.py lines 28, 31, 34). -/
structure AudioState where
  smoothed_spectrum : List ℝ
  sensitivity : ℝ
  energy : ℝ

/-- np.mean: sum over length. -/
noncomputable def listMean (l : List ℝ) : ℝ := l.sum / l.length

/-- TerminalAudioVisualizer.get_audio_data (main.py lines 79-97), as a
function of the incoming audio block: form the one-sided normalized
spectrum, blend it into the smoothed spectrum with factor smoothing,
scale by the sensitivity, store mean of the first CHUNK/4 adjusted bins
times 2 as the energy, and return the adjusted spectrum. -/
noncomputable def get_audio_data (st : AudioState) (data : List ℝ) :
    AudioState × List ℝ :=
  let spectrum := rawSpectrum data
  let smoothed := List.zipWith
    (fun p s => p * smoothing + s * (1 - smoothing)) st.smoothed_spectrum spectrum
  let adjusted := smoothed.map fun x => x * st.sensitivity
  let energy := listMean (adjusted.take (CHUNK / 4)) * 2
  ({ st with smoothed_spectrum := smoothed, energy := energy }, adjusted)

/-- The analysis formula as the specification words it: raw spectrum =
magnitudes of the first chunk_size/2 DFT coefficients divided by
128 * chunk_size; smoothed[t] = smoothed[t-1] * 0.8 + raw[t] * 0.2;
adjusted = smoothed * SensitivityFactor; EnergyScalar =
2 * mean(adjusted_spectrum[0 : chunk_size/4]). -/
noncomputable def specAnalyze (prev : List ℝ) (sens : ℝ) (data : List ℝ) :
    List ℝ × ℝ :=
  let raw := (List.range (CHUNK / 2)).map fun k =>
    Complex.abs (dftCoeff data k) / (128 * CHUNK)
  let sm := List.zipWith (fun p r => p * 0.8 + r * 0.2) prev raw
  let adj := sm.map fun x => x * sens
  (adj, 2 * listMean (adj.take (CHUNK / 4)))

/-- The all-zero audio block of one chunk (silence). -/
def zeroBlock : List ℝ := List.replicate CHUNK 0

/-- One frame of get_audio_data fed with silence, keeping the state. -/
noncomputable def silentStep (st : AudioState) : AudioState :=
  (get_audio_data st zeroBlock).1

/-- The energy computation of main.py line 95, as a function of the
smoothed spectrum and the sensitivity: mean of the first CHUNK/4
sensitivity-adjusted bins, times 2. -/
noncomputable def energyOf (l : List ℝ) (s : ℝ) : ℝ :=
  listMean ((l.map fun x => x * s).take (CHUNK / 4)) * 2

/-! ## Helper lemmas about the key-handling block -/

lemma afterKey_plus (vis : List Visualizer) (st : LoopState) :
    afterKey vis st "+" = { st with sensitivity := incSens st.sensitivity } := rfl

lemma afterKey_minus (vis : List Visualizer) (st : LoopState) :
    afterKey vis st "-" = { st with sensitivity := decSens st.sensitivity } := rfl

lemma iterate_afterKey_plus (vis : List Visualizer) (n : Nat) (st : LoopState) :
    (fun s => afterKey vis s "+")^[n] st =
      { st with sensitivity := incSens^[n] st.sensitivity } := by
  induction n with
  | zero => rfl
  | succ n ih =>
    rw [Function.iterate_succ_apply', Function.iterate_succ_apply', ih, afterKey_plus]

lemma iterate_afterKey_minus (vis : List Visualizer) (n : Nat) (st : LoopState) :
    (fun s => afterKey vis s "-")^[n] st =
      { st with sensitivity := decSens^[n] st.sensitivity } := by
  induction n with
  | zero => rfl
  | succ n ih =>
    rw [Function.iterate_succ_apply', Function.iterate_succ_apply', ih, afterKey_minus]

/-- The binary64 value of the literal 0.1, computed: it is slightly
above 1/10. -/
lemma dbl01_val : dbl01 = mkRat 3602879701896397 36028797018963968 := by decide

/-- Every decrease press leaves the sensitivity at or above 0.1: the
result of max(0.1, s - 0.1) is at least the double 0.1, which itself
exceeds 1/10. -/
lemma decSens_ge_tenth (x : ℚ) : 1/10 ≤ decSens x := by
  have hd : (1:ℚ)/10 ≤ dbl01 := by
    rw [dbl01_val, Rat.mkRat_eq_div]
    norm_num
  unfold decSens fmax
  split_ifs with h
  · exact le_trans hd (Rat.le_def.mpr h)
  · exact hd

lemma iterate_cycle (n i k : Nat) (hi : i < n) :
    (cycle n)^[k] i = (i + k) % n := by
  induction k with
  | zero => simp [Nat.mod_eq_of_lt hi]
  | succ k ih =>
    rw [Function.iterate_succ_apply', ih, cycle, Nat.mod_add_mod, ← Nat.add_assoc]

set_option maxRecDepth 4000 in
/-- C6 counterexample: with the sensitivity updated in IEEE-754
binary64 arithmetic exactly as the program executes it, five presses of
the increase key from the default 1.0 yield the double
1.5000000000000004 (the rational 3377699720527873 * 2^-51), which is
not equal to 1.5: the claimed exact equality fails on the code. -/
theorem sensitivity_five_presses_counterexample :
    ((fun s => afterKey [] s "+")^[5] initState).sensitivity =
      mkRat 3377699720527873 2251799813685248 ∧
    ((fun s => afterKey [] s "+")^[5] initState).sensitivity ≠ 3 / 2 := by
  have h1 : ((fun s => afterKey [] s "+")^[5] initState).sensitivity =
      mkRat 3377699720527873 2251799813685248 := by decide
  refine ⟨h1, ?_⟩
  rw [h1, Rat.mkRat_eq_div]
  norm_num

set_option maxRecDepth 4000 in
/-- C6 as amended: in the binary64 arithmetic the program performs,
five increase presses from the default 1.0 yield exactly the double
1.5000000000000004, one unit in the last place above 1.5; the fifth
press still strictly increases the value and no ceiling is imposed; for
every number of decrease presses the sensitivity never goes below the
0.1 floor, and 20 decreases from the default pin it at the double
nearest 0.1 (slightly above 1/10). -/
theorem sensitivity_key_float_bounds (vis : List Visualizer) :
    ((fun s => afterKey vis s "+")^[5] initState).sensitivity =
      mkRat 3377699720527873 2251799813685248 ∧
    ((fun s => afterKey vis s "+")^[5] initState).sensitivity - 3 / 2 =
      1 / 2251799813685248 ∧
    (∀ n : Nat, 1/10 ≤ ((fun s => afterKey vis s "-")^[n] initState).sensitivity) ∧
    ((fun s => afterKey vis s "+")^[4] initState).sensitivity <
      ((fun s => afterKey vis s "+")^[5] initState).sensitivity ∧
    ((fun s => afterKey vis s "-")^[20] initState).sensitivity = dbl01 := by
  have hplus : ∀ n : Nat,
      ((fun s => afterKey vis s "+")^[n] initState).sensitivity =
        incSens^[n] 1 := by
    intro n
    rw [iterate_afterKey_plus]
    rfl
  have hminus : ∀ n : Nat,
      ((fun s => afterKey vis s "-")^[n] initState).sensitivity =
        decSens^[n] 1 := by
    intro n
    rw [iterate_afterKey_minus]
    rfl
  have h5 : incSens^[5] (1:ℚ) = mkRat 3377699720527873 2251799813685248 := by
    decide
  have h4 : incSens^[4] (1:ℚ) = mkRat 788129934789837 562949953421312 := by
    decide
  have h20 : decSens^[20] (1:ℚ) = dbl01 := by decide
  refine ⟨(hplus 5).trans h5, ?_, ?_, ?_, (hminus 20).trans h20⟩
  · rw [hplus 5, h5, Rat.mkRat_eq_div]
    norm_num
  · intro n
    cases n with
    | zero =>
      show (1:ℚ)/10 ≤ initState.sensitivity
      norm_num [initState]
    | succ n =>
      rw [Function.iterate_succ_apply', afterKey_minus]
      exact decSens_ge_tenth _
  · rw [hplus 4, hplus 5, h4, h5, Rat.mkRat_eq_div, Rat.mkRat_eq_div]
    norm_num

/-- C7: on a registry of n visualizers the index advance of the 'm' key
is a total cyclic permutation: one application advances by one modulo n,
k applications land on (i + k) % n, n applications return to the start,
and within one full cycle no index is repeated (hence none skipped). -/
theorem cycle_is_cyclic_permutation (n i : Nat) (hn : 1 ≤ n) (hi : i < n) :
    cycle n i = (i + 1) % n ∧
    (∀ k, (cycle n)^[k] i = (i + k) % n) ∧
    (cycle n)^[n] i = i ∧
    (∀ k₁ k₂, k₁ < n → k₂ < n →
      (cycle n)^[k₁] i = (cycle n)^[k₂] i → k₁ = k₂) := by
  refine ⟨rfl, fun k => iterate_cycle n i k hi, ?_, ?_⟩
  · rw [iterate_cycle n i n hi, Nat.add_mod_right, Nat.mod_eq_of_lt hi]
  · intro k₁ k₂ hk₁ hk₂ h
    rw [iterate_cycle n i k₁ hi, iterate_cycle n i k₂ hi] at h
    have h' : k₁ % n = k₂ % n := Nat.ModEq.add_left_cancel' i h
    rwa [Nat.mod_eq_of_lt hk₁, Nat.mod_eq_of_lt hk₂] at h'

/-- Witness for C7 at n = 3, i = 1. -/
theorem cycle_is_cyclic_permutation_witness :
    cycle 3 1 = 2 ∧ (cycle 3)^[3] 1 = 1 := by
  have h := cycle_is_cyclic_permutation 3 1 (by decide) (by decide)
  exact ⟨h.1, h.2.2.1⟩

/-- C8: a key belonging to the loop's global bindings is handled by the
render loop and never offered to the active visualizer; any other key is
forwarded to the active visualizer's handle_keypress and the loop's own
state is untouched by it. -/
theorem global_keys_intercepted (vis : List Visualizer) (st : LoopState)
    (key : String) (hidx : st.idx < vis.length) :
    (key ∈ globalKeys → Effect.forwardKey key ∉ (keyPhase vis st (some key)).2) ∧
    (key ∉ globalKeys →
      (keyPhase vis st (some key)).2 = [Effect.pollKey, Effect.forwardKey key] ∧
      (keyPhase vis st (some key)).1 = KeyOutcome.next st) := by
  have hlen : vis.length ≠ 0 := by omega
  constructor
  · intro hmem
    fin_cases hmem <;> simp [keyPhase, hlen]
  · intro hmem
    simp only [globalKeys, List.mem_cons, List.mem_singleton, not_or] at hmem
    obtain ⟨h1, h2, h3, h4, h5, h6, -⟩ := hmem
    have hget : vis[st.idx]? = some (vis.get ⟨st.idx, hidx⟩) := by
      rw [← List.get?_eq_getElem?]
      exact List.get?_eq_get hidx
    cases hcall : vis[st.idx].handle_keypress key <;>
      simp [keyPhase, h1, h2, h3, h4, h5, h6, hget, hcall]

/-- Witness for C8: with one loaded visualizer, the global key 'm' is
never forwarded, and the non-global key 'x' is forwarded with the loop
state untouched. -/
theorem global_keys_intercepted_witness :
    Effect.forwardKey "m" ∉ (keyPhase [visOk] initState (some "m")).2 ∧
    (keyPhase [visOk] initState (some "x")).2 =
      [Effect.pollKey, Effect.forwardKey "x"] := by
  refine ⟨(global_keys_intercepted [visOk] initState "m" (by decide)).1 (by decide),
    ((global_keys_intercepted [visOk] initState "x" (by decide)).2 (by decide)).1⟩

/-- C10: an exception out of the active visualizer's handle_keypress is
swallowed by the bare except around the key-handling block: the loop
state is unchanged, the iteration stays alive (the outcome is next with
the same state, never a crash or quit), and the outcome does not depend
on the handler at all, so neither a raised exception nor any returned
value can affect or terminate the session. -/
theorem keypress_exception_swallowed (vis : List Visualizer) (st : LoopState)
    (key : String) (v : Visualizer) (e : String)
    (hglob : key ∉ globalKeys)
    (hv : vis.get? st.idx = some v)
    (he : v.handle_keypress key = Except.error e) :
    (keyPhase vis st (some key)).1 = KeyOutcome.next st ∧
    (keyPhase vis st (some key)).2 = [Effect.pollKey, Effect.forwardKey key] ∧
    (∀ (vis' : List Visualizer) (w : Visualizer), vis'.get? st.idx = some w →
      keyPhase vis' st (some key) = keyPhase vis st (some key)) := by
  simp only [globalKeys, List.mem_cons, List.mem_singleton, not_or] at hglob
  obtain ⟨h1, h2, h3, h4, h5, h6, -⟩ := hglob
  have hv' : vis[st.idx]? = some v := by rw [← List.get?_eq_getElem?]; exact hv
  refine ⟨?_, ?_, ?_⟩
  · simp [keyPhase, h1, h2, h3, h4, h5, h6, hv', he]
  · simp [keyPhase, h1, h2, h3, h4, h5, h6, hv', he]
  · intro vis' w hw
    have hw' : vis'[st.idx]? = some w := by rw [← List.get?_eq_getElem?]; exact hw
    rcases hcall : w.handle_keypress key with e' | r <;>
      simp [keyPhase, h1, h2, h3, h4, h5, h6, hv', he, hw', hcall]

/-- Witness for C10: the visualizer whose handler raises on 'x' leaves
the loop state of a one-visualizer session untouched. -/
theorem keypress_exception_swallowed_witness :
    (keyPhase [visBadKeys] initState (some "x")).1 = KeyOutcome.next initState ∧
    (keyPhase [visBadKeys] initState (some "x")).2 =
      [Effect.pollKey, Effect.forwardKey "x"] := by
  have h := keypress_exception_swallowed [visBadKeys] initState "x" visBadKeys
    "keyboom" (by decide) rfl rfl
  exact ⟨h.1, h.2.1⟩

/-- Flattened description of the key-handling block: outcome and
effects for every key. -/
lemma keyPhase_spec (vis : List Visualizer) (st : LoopState) (key : String) :
    keyPhase vis st (some key) =
      if key = "q" then (.quit, [.pollKey])
      else if key = "m" then
        (.next { st with
            idx := if vis.length = 0 then st.idx else cycle vis.length st.idx },
          [.pollKey])
      else if key = " " then (.next { st with pause := !st.pause }, [.pollKey])
      else if key = "+" ∨ key = "=" then
        (.next { st with sensitivity := incSens st.sensitivity }, [.pollKey])
      else if key = "-" then
        (.next { st with sensitivity := decSens st.sensitivity }, [.pollKey])
      else if (vis.get? st.idx).isSome then
        (.next st, [.pollKey, .forwardKey key])
      else (.next st, [.pollKey]) := by
  simp only [keyPhase]
  split_ifs with hq hm h0 hs hpe hmi hsome
  · rfl
  · rfl
  · rfl
  · rfl
  · rfl
  · rfl
  · rcases hg : vis.get? st.idx with _ | v
    · rw [hg] at hsome; cases hsome
    · cases hc : v.handle_keypress key <;> simp [hc]
  · rcases hg : vis.get? st.idx with _ | v
    · rfl
    · rw [hg] at hsome; simp at hsome

/-- Any key other than the pause toggle leaves the pause flag as it
was. -/
lemma keyPhase_next_pause (vis : List Visualizer) (st : LoopState)
    (key? : Option String) (hk : key? ≠ some " ") (st' : LoopState)
    (h : (keyPhase vis st key?).1 = KeyOutcome.next st') : st'.pause = st.pause := by
  rcases key? with _ | key
  · simp only [keyPhase] at h
    cases h
    rfl
  · have hks : key ≠ " " := fun h' => hk (by rw [h'])
    rw [keyPhase_spec] at h
    split_ifs at h with hq hm hlen hs hpe hmi <;>
      first
        | exact absurd ‹key = " "› hks
        | (cases h; rfl)

/-- The key-handling block emits no frame effects: everything it does is
poll the keyboard and possibly forward a key. -/
lemma keyPhase_effects_input_only (vis : List Visualizer) (st : LoopState)
    (key? : Option String) :
    ∀ e ∈ (keyPhase vis st key?).2,
      e = Effect.pollKey ∨ ∃ k, e = Effect.forwardKey k := by
  intro e he
  rcases key? with _ | key
  · simp only [keyPhase, List.mem_singleton] at he
    exact Or.inl he
  · rw [keyPhase_spec] at he
    split_ifs at he <;>
      simp only [List.mem_cons, List.mem_singleton, List.not_mem_nil,
        or_false] at he <;>
      first
        | exact Or.inl he
        | (rcases he with h | h
           exacts [Or.inl h, Or.inr ⟨key, h⟩])

/-- Polling the keyboard happens in every iteration. -/
lemma keyPhase_polls (vis : List Visualizer) (st : LoopState)
    (key? : Option String) : Effect.pollKey ∈ (keyPhase vis st key?).2 := by
  rcases key? with _ | key
  · simp [keyPhase]
  · rw [keyPhase_spec]
    split_ifs <;> simp

/-- When the key-handling block leaves the pause flag set, the iteration
is exactly the key-handling block: the frame body is skipped. -/
lemma loopIter_paused_eq (vis : List Visualizer) (st : LoopState)
    (key? : Option String) (hp : st.pause = true) (hk : key? ≠ some " ") :
    loopIter vis st key? =
      match keyPhase vis st key? with
      | (.quit, eff) => (IterResult.quit, eff)
      | (.next st', eff) => (IterResult.next st', eff) := by
  unfold loopIter
  rcases hkp : keyPhase vis st key? with ⟨o, eff⟩
  rcases o with _ | st'
  · rfl
  · have hpp : st'.pause = true := by
      rw [keyPhase_next_pause vis st key? hk st' (by rw [hkp])]
      exact hp
    simp [hpp]

/-- C4 counterexample: an iteration that begins PAUSED but receives the
pause-toggle key unpauses and renders a frame in that same iteration —
it reads audio, clears the screen and draws, contradicting the claim
that every iteration beginning in PAUSED does none of these. -/
theorem paused_iteration_counterexample :
    ({ initState with pause := true } : LoopState).pause = true ∧
    Effect.captureBlock ∈
      (loopIter [visOk] { initState with pause := true } (some " ")).2 ∧
    Effect.clearScreen ∈
      (loopIter [visOk] { initState with pause := true } (some " ")).2 ∧
    Effect.draw ∈
      (loopIter [visOk] { initState with pause := true } (some " ")).2 := by
  decide

/-- C4 as amended: for every loop iteration that begins in the PAUSED
state and whose key event is not the pause toggle, the iteration invokes
neither the audio read nor the active visualizer's draw and does not
clear the screen — its effects are exactly those of the key-handling
block — yet the key is polled and the global bindings (quit,
mode-switch, sensitivity) still take effect during that iteration. -/
theorem paused_iteration_input_only (vis : List Visualizer) (st : LoopState)
    (key? : Option String) (hp : st.pause = true) (hk : key? ≠ some " ") :
    (loopIter vis st key?).2 = (keyPhase vis st key?).2 ∧
    Effect.captureBlock ∉ (loopIter vis st key?).2 ∧
    Effect.clearScreen ∉ (loopIter vis st key?).2 ∧
    Effect.draw ∉ (loopIter vis st key?).2 ∧
    Effect.pollKey ∈ (loopIter vis st key?).2 ∧
    (key? = some "q" → (loopIter vis st key?).1 = IterResult.quit) ∧
    (key? = some "m" → vis.length ≠ 0 → (loopIter vis st key?).1 =
      IterResult.next { st with idx := cycle vis.length st.idx }) ∧
    (key? = some "+" → (loopIter vis st key?).1 =
      IterResult.next { st with sensitivity := incSens st.sensitivity }) ∧
    (key? = some "-" → (loopIter vis st key?).1 =
      IterResult.next { st with sensitivity := decSens st.sensitivity }) := by
  have heq := loopIter_paused_eq vis st key? hp hk
  have heffs : (loopIter vis st key?).2 = (keyPhase vis st key?).2 := by
    rw [heq]
    rcases keyPhase vis st key? with ⟨o, eff⟩
    rcases o with _ | st' <;> rfl
  have hres : ∀ st', (keyPhase vis st key?).1 = KeyOutcome.next st' →
      (loopIter vis st key?).1 = IterResult.next st' := by
    intro st' h'
    rw [heq]
    rcases hkp : keyPhase vis st key? with ⟨o, eff⟩
    rw [hkp] at h'
    rcases o with _ | st'' <;> simp at h' <;> simp [h']
  have hsub := keyPhase_effects_input_only vis st key?
  refine ⟨heffs, ?_, ?_, ?_, ?_, ?_, ?_, ?_, ?_⟩
  · rw [heffs]
    intro hmem
    rcases hsub _ hmem with h | ⟨k, h⟩ <;> cases h
  · rw [heffs]
    intro hmem
    rcases hsub _ hmem with h | ⟨k, h⟩ <;> cases h
  · rw [heffs]
    intro hmem
    rcases hsub _ hmem with h | ⟨k, h⟩ <;> cases h
  · rw [heffs]; exact keyPhase_polls vis st key?
  · intro hq
    subst hq
    rw [heq]
    simp [keyPhase_spec]
  · intro hm hlen
    subst hm
    apply hres
    rw [keyPhase_spec]
    simp [hlen]
  · intro hpl
    subst hpl
    apply hres
    rw [keyPhase_spec]
    rfl
  · intro hmi
    subst hmi
    apply hres
    rw [keyPhase_spec]
    rfl

/-- Witness for C4 (amended): a paused iteration with the '+' key keeps
the frame skipped while the sensitivity binding takes effect. -/
theorem paused_iteration_input_only_witness :
    Effect.draw ∉
      (loopIter [visOk] { initState with pause := true } (some "+")).2 ∧
    (loopIter [visOk] { initState with pause := true } (some "+")).1 =
      IterResult.next { initState with pause := true, sensitivity := incSens 1 } := by
  have h := paused_iteration_input_only [visOk] { initState with pause := true }
    (some "+") rfl (by decide)
  exact ⟨h.2.2.2.1, h.2.2.2.2.2.2.2.1 rfl⟩

/-- C1 counterexample: with the session running (not paused), a single
visualizer whose draw raises makes the loop iteration end in a crash —
the draw-time exception is not caught at the loop level and the session
does not continue into the next frame. -/
theorem draw_exception_counterexample :
    (loopIter [visBadDraw] initState none).1 = IterResult.crashed "boom" ∧
    ¬ ∃ st', (loopIter [visBadDraw] initState none).1 = IterResult.next st' := by
  refine ⟨by decide, ?_⟩
  rintro ⟨st', h⟩
  rw [show (loopIter [visBadDraw] initState none).1 = IterResult.crashed "boom"
    from by decide] at h
  cases h

/-- C1 as amended: an exception raised by the active visualizer's draw
during a frame is not caught by the render loop: the try around the
while loop has only a finally clause, so the exception propagates out of
the loop, the finally block performs audio cleanup, and the session
terminates with that exception. -/
theorem draw_exception_terminates (vis : List Visualizer) (st : LoopState)
    (v : Visualizer) (e : String) (hp : st.pause = false)
    (hv : vis.get? st.idx = some v) (he : v.draw = Except.error e) :
    (loopIter vis st none).1 = IterResult.crashed e := by
  simp only [loopIter, keyPhase, hp]
  simp only [framePhase]
  rw [show ({ st with hue := pyMod1 (st.hue + 1/200) } : LoopState).idx = st.idx
    from rfl, hv]
  simp [he]

/-- Witness for C1 (amended): the failing-draw visualizer crashes the
session from the initial state. -/
theorem draw_exception_terminates_witness :
    (loopIter [visBadDraw] initState none).1 = IterResult.crashed "boom" :=
  draw_exception_terminates [visBadDraw] initState visBadDraw "boom" rfl rfl rfl

/-- C5 counterexample: with zero visualizers loaded, startup does not
abort — __init__ completes and the render loop is entered (the first
iteration even reads an audio block and clears the screen) before the
session dies of an uncaught IndexError while looking up the active
visualizer, contradicting the claim that the process aborts at startup
rather than entering the render loop. -/
theorem zero_visualizers_counterexample :
    initVisualizer [] = StartupResult.started [] initState ∧
    Effect.captureBlock ∈ (loopIter [] initState none).2 ∧
    Effect.clearScreen ∈ (loopIter [] initState none).2 ∧
    (loopIter [] initState none).1 = IterResult.crashed "IndexError" := by
  exact ⟨rfl, by decide, by decide, by decide⟩

/-- C5 as amended: if zero visualizers load successfully, startup
continues (load_visualizers merely prints a warning and __init__
completes); the render loop is entered, and every iteration whose
key-handling leaves the session unpaused ends with an uncaught
IndexError at the active-visualizer lookup of the frame body, which
terminates the process. The condition is fatal, but the abort happens
inside the first unpaused loop iteration, not at startup. -/
theorem zero_visualizers_crash_in_loop (st : LoopState)
    (hp : st.pause = false) :
    initVisualizer [] = StartupResult.started [] initState ∧
    (loopIter [] st none).1 = IterResult.crashed "IndexError" ∧
    Effect.captureBlock ∈ (loopIter [] st none).2 := by
  refine ⟨rfl, ?_, ?_⟩ <;> simp [loopIter, keyPhase, framePhase, hp]

/-- Witness for C5 (amended) at the initial state. -/
theorem zero_visualizers_crash_in_loop_witness :
    (loopIter [] initState none).1 = IterResult.crashed "IndexError" :=
  (zero_visualizers_crash_in_loop initState rfl).2.1

/-! ## Numeric lemmas -/

lemma getD_replicate_zero (m n : Nat) :
    (List.replicate m (0:ℝ)).getD n 0 = 0 := by
  induction m generalizing n with
  | zero => simp [List.getD]
  | succ m ih =>
    cases n with
    | zero => simp [List.replicate_succ, List.getD]
    | succ n => simpa [List.replicate_succ, List.getD] using ih n

lemma mem_zipWith_blend {f : ℝ → ℝ → ℝ} :
    ∀ (l₁ l₂ : List ℝ) (x : ℝ), x ∈ List.zipWith f l₁ l₂ →
      ∃ a b, a ∈ l₁ ∧ b ∈ l₂ ∧ x = f a b := by
  intro l₁
  induction l₁ with
  | nil => intro l₂ x hx; simp at hx
  | cons a l ih =>
    intro l₂ x hx
    cases l₂ with
    | nil => simp at hx
    | cons b l₂ =>
      simp only [List.zipWith_cons_cons, List.mem_cons] at hx
      rcases hx with hx | hx
      · exact ⟨a, b, List.mem_cons_self a l, List.mem_cons_self b l₂, hx⟩
      · rcases ih l₂ x hx with ⟨a', b', ha, hb, hx'⟩
        exact ⟨a', b', List.mem_cons_of_mem a ha, List.mem_cons_of_mem b hb, hx'⟩

lemma zipWith_blend_zero :
    ∀ (l : List ℝ) (m : Nat), l.length ≤ m →
      List.zipWith (fun p s => p * smoothing + s * (1 - smoothing)) l
        (List.replicate m (0:ℝ)) = l.map fun x => x * smoothing := by
  intro l
  induction l with
  | nil => intro m _; simp
  | cons a l ih =>
    intro m hm
    cases m with
    | zero => simp at hm
    | succ m =>
      simp only [List.replicate_succ, List.zipWith_cons_cons, List.map_cons,
        zero_mul, add_zero, List.cons.injEq]
      exact ⟨trivial, ih m (by simpa using hm)⟩

lemma sum_map_mul (l : List ℝ) (c : ℝ) :
    (l.map fun x => x * c).sum = l.sum * c := by
  simpa using List.sum_map_mul_right l (fun x => x) c

lemma getD_map_mul (l : List ℝ) (c : ℝ) :
    ∀ i, (l.map fun x => x * c).getD i 0 = l.getD i 0 * c := by
  intro i
  induction l generalizing i with
  | nil => simp [List.getD]
  | cons a l ih =>
    cases i with
    | zero => simp [List.getD]
    | succ i => simpa [List.getD] using ih i

lemma getD_nonneg (l : List ℝ) (hl : ∀ x ∈ l, 0 ≤ x) (i : Nat) :
    0 ≤ l.getD i 0 := by
  induction l generalizing i with
  | nil => simp [List.getD]
  | cons a l ih =>
    cases i with
    | zero => simpa [List.getD] using hl a (List.mem_cons_self a l)
    | succ i =>
      simpa [List.getD] using ih (fun x hx => hl x (List.mem_cons_of_mem a hx)) i

lemma dftCoeff_zeroBlock (k : Nat) : dftCoeff zeroBlock k = 0 := by
  unfold dftCoeff
  apply Finset.sum_eq_zero
  intro n _
  have hz : zeroBlock.getD n 0 = 0 := getD_replicate_zero CHUNK n
  rw [hz]
  simp

lemma rawSpectrum_length (data : List ℝ) :
    (rawSpectrum data).length = CHUNK / 2 := by
  simp [rawSpectrum]

lemma rawSpectrum_nonneg (data : List ℝ) :
    ∀ x ∈ rawSpectrum data, 0 ≤ x := by
  intro x hx
  rcases List.mem_map.mp hx with ⟨k, _, rfl⟩
  apply div_nonneg (Complex.abs.nonneg _)
  positivity

lemma rawSpectrum_zeroBlock :
    rawSpectrum zeroBlock = List.replicate (CHUNK / 2) 0 := by
  rw [List.eq_replicate_iff]
  refine ⟨rawSpectrum_length zeroBlock, ?_⟩
  intro b hb
  rcases List.mem_map.mp hb with ⟨k, _, rfl⟩
  rw [dftCoeff_zeroBlock]
  simp

lemma silentStep_spec (st : AudioState)
    (h : st.smoothed_spectrum.length = CHUNK / 2) :
    (silentStep st).smoothed_spectrum =
      st.smoothed_spectrum.map (fun x => x * smoothing) ∧
    (silentStep st).sensitivity = st.sensitivity ∧
    (silentStep st).energy =
      energyOf ((silentStep st).smoothed_spectrum) st.sensitivity := by
  have hsm : (silentStep st).smoothed_spectrum =
      st.smoothed_spectrum.map (fun x => x * smoothing) := by
    show (List.zipWith (fun p s => p * smoothing + s * (1 - smoothing))
      st.smoothed_spectrum (rawSpectrum zeroBlock)) = _
    rw [rawSpectrum_zeroBlock]
    exact zipWith_blend_zero st.smoothed_spectrum (CHUNK / 2) (le_of_eq h)
  exact ⟨hsm, rfl, rfl⟩

lemma energyOf_scale (l : List ℝ) (c s : ℝ) :
    energyOf (l.map fun x => x * c) s = c * energyOf l s := by
  unfold energyOf listMean
  have h1 : (l.map fun x => x * c).map (fun x => x * s) =
      (l.map fun x => x * s).map fun x => x * c := by
    rw [List.map_map, List.map_map]
    congr 1
    funext x
    show x * c * s = x * s * c
    ring
  rw [h1, ← List.map_take, sum_map_mul, List.length_map]
  ring

lemma energyOf_nonneg (l : List ℝ) (s : ℝ)
    (hl : ∀ x ∈ l, 0 ≤ x) (hs : 0 ≤ s) : 0 ≤ energyOf l s := by
  unfold energyOf listMean
  apply mul_nonneg _ (by norm_num)
  apply div_nonneg
  · apply List.sum_nonneg
    intro x hx
    have hx' := List.take_subset _ _ hx
    rcases List.mem_map.mp hx' with ⟨a, ha, rfl⟩
    exact mul_nonneg (hl a ha) hs
  · positivity

lemma silent_iterate (st : AudioState)
    (hlen : st.smoothed_spectrum.length = CHUNK / 2) : ∀ n,
    (silentStep^[n] st).smoothed_spectrum =
      st.smoothed_spectrum.map (fun x => x * smoothing ^ n) ∧
    (silentStep^[n] st).sensitivity = st.sensitivity := by
  intro n
  induction n with
  | zero => simp
  | succ n ih =>
    have hlen_n : (silentStep^[n] st).smoothed_spectrum.length = CHUNK / 2 := by
      rw [ih.1]
      simpa using hlen
    obtain ⟨h1, h2, -⟩ := silentStep_spec _ hlen_n
    rw [Function.iterate_succ_apply']
    refine ⟨?_, by rw [h2, ih.2]⟩
    rw [h1, ih.1, List.map_map]
    congr 1
    funext x
    show x * smoothing ^ n * smoothing = x * smoothing ^ (n + 1)
    rw [pow_succ]
    ring

lemma silent_energy (st : AudioState)
    (hlen : st.smoothed_spectrum.length = CHUNK / 2) : ∀ n,
    (silentStep^[n + 1] st).energy =
      smoothing ^ (n + 1) *
        energyOf st.smoothed_spectrum st.sensitivity := by
  intro n
  have hlen_n : (silentStep^[n] st).smoothed_spectrum.length = CHUNK / 2 := by
    rw [(silent_iterate st hlen n).1]
    simpa using hlen
  obtain ⟨h1, -, h3⟩ := silentStep_spec _ hlen_n
  rw [Function.iterate_succ_apply', h3, h1, (silent_iterate st hlen n).1,
    (silent_iterate st hlen n).2, energyOf_scale, energyOf_scale, pow_succ]
  ring

/-- C2: for every AudioBlock of the configured chunk size, get_audio_data
computes exactly the specification's formula chain: raw spectrum = the
magnitudes of the first chunk_size/2 DFT coefficients divided by
128*chunk_size, smoothed[t] = smoothed[t-1]*0.8 + raw[t]*0.2, adjusted =
smoothed * SensitivityFactor (the returned SpectrumFrame), and
EnergyScalar = 2 * mean(adjusted_spectrum[0 : chunk_size/4]). -/
theorem get_audio_data_matches_spec (st : AudioState) (data : List ℝ)
    (hd : data.length = CHUNK) :
    (get_audio_data st data).2 =
      (specAnalyze st.smoothed_spectrum st.sensitivity data).1 ∧
    (get_audio_data st data).1.energy =
      (specAnalyze st.smoothed_spectrum st.sensitivity data).2 ∧
    (get_audio_data st data).1.smoothed_spectrum =
      List.zipWith (fun p r => p * 0.8 + r * 0.2) st.smoothed_spectrum
        (rawSpectrum data) := by
  have key : List.zipWith (fun p s => p * smoothing + s * (1 - smoothing))
      st.smoothed_spectrum (rawSpectrum data) =
      List.zipWith (fun p r => p * (0.8:ℝ) + r * 0.2) st.smoothed_spectrum
        (rawSpectrum data) := by
    congr 1
    funext p r
    rw [show smoothing = 0.8 from rfl]
    norm_num
  refine ⟨?_, ?_, ?_⟩
  · show (List.zipWith (fun p s => p * smoothing + s * (1 - smoothing))
        st.smoothed_spectrum (rawSpectrum data)).map
          (fun x => x * st.sensitivity) =
      (List.zipWith (fun p r => p * (0.8:ℝ) + r * 0.2) st.smoothed_spectrum
        (rawSpectrum data)).map (fun x => x * st.sensitivity)
    rw [key]
  · show listMean (((List.zipWith (fun p s => p * smoothing + s * (1 - smoothing))
        st.smoothed_spectrum (rawSpectrum data)).map
          (fun x => x * st.sensitivity)).take (CHUNK / 4)) * 2 =
      2 * listMean (((List.zipWith (fun p r => p * (0.8:ℝ) + r * 0.2)
        st.smoothed_spectrum (rawSpectrum data)).map
          (fun x => x * st.sensitivity)).take (CHUNK / 4))
    rw [key, mul_comm]
  · show List.zipWith (fun p s => p * smoothing + s * (1 - smoothing))
        st.smoothed_spectrum (rawSpectrum data) = _
    rw [key]

/-- Witness for C2 on the all-zero chunk-size block. -/
theorem get_audio_data_matches_spec_witness :
    (List.replicate CHUNK (0:ℝ)).length = CHUNK ∧
    (get_audio_data ⟨List.replicate (CHUNK / 2) 0, 1, 0⟩
        (List.replicate CHUNK 0)).2 =
      (specAnalyze (List.replicate (CHUNK / 2) 0) 1
        (List.replicate CHUNK 0)).1 :=
  ⟨by simp,
    (get_audio_data_matches_spec ⟨List.replicate (CHUNK / 2) 0, 1, 0⟩
      (List.replicate CHUNK 0) (by simp)).1⟩

/-- C3: for every chunk-size AudioBlock and every well-formed state
(smoothed spectrum of length chunk/2 with non-negative entries,
non-negative sensitivity), the SpectrumFrame returned by get_audio_data
has exactly chunk/2 entries, all non-negative. -/
theorem analyze_halfchunk_nonneg (st : AudioState) (data : List ℝ)
    (hd : data.length = CHUNK)
    (hlen : st.smoothed_spectrum.length = CHUNK / 2)
    (hpos : ∀ x ∈ st.smoothed_spectrum, 0 ≤ x)
    (hsens : 0 ≤ st.sensitivity) :
    (get_audio_data st data).2.length = CHUNK / 2 ∧
    ∀ x ∈ (get_audio_data st data).2, 0 ≤ x := by
  constructor
  · show ((List.zipWith (fun p s => p * smoothing + s * (1 - smoothing))
        st.smoothed_spectrum (rawSpectrum data)).map
          (fun x => x * st.sensitivity)).length = CHUNK / 2
    rw [List.length_map, List.length_zipWith, hlen, rawSpectrum_length]
    simp
  · intro x hx
    have hx' : x ∈ (List.zipWith (fun p s => p * smoothing + s * (1 - smoothing))
        st.smoothed_spectrum (rawSpectrum data)).map
          (fun y => y * st.sensitivity) := hx
    rcases List.mem_map.mp hx' with ⟨y, hy, rfl⟩
    rcases mem_zipWith_blend _ _ _ hy with ⟨p, r, hp, hr, rfl⟩
    have h08 : (0:ℝ) ≤ smoothing := by
      rw [show smoothing = 0.8 from rfl]; norm_num
    have h02 : (0:ℝ) ≤ 1 - smoothing := by
      rw [show smoothing = 0.8 from rfl]; norm_num
    have hr0 := rawSpectrum_nonneg data r hr
    have hp0 := hpos p hp
    exact mul_nonneg
      (add_nonneg (mul_nonneg hp0 h08) (mul_nonneg hr0 h02)) hsens

/-- Witness for C3 on the all-zero block and the startup state. -/
theorem analyze_halfchunk_nonneg_witness :
    (get_audio_data ⟨List.replicate (CHUNK / 2) 0, 1, 0⟩
        (List.replicate CHUNK 0)).2.length = CHUNK / 2 :=
  (analyze_halfchunk_nonneg ⟨List.replicate (CHUNK / 2) 0, 1, 0⟩
    (List.replicate CHUNK 0) (by simp) (by simp)
    (fun x hx => by rw [List.eq_of_mem_replicate hx])
    zero_le_one).1

/-- C9: feeding the all-zero AudioBlock repeatedly from any well-formed
non-negative state scales every smoothed-spectrum entry by the factor
0.8 each frame, keeps every entry non-negative and non-increasing, and
drives every entry to zero in the limit; the recomputed EnergyScalar
likewise scales by 0.8 from each fed frame to the next, stays
non-negative and non-increasing, and tends to zero — nothing ever
diverges. -/
theorem silence_decays (st : AudioState)
    (hlen : st.smoothed_spectrum.length = CHUNK / 2)
    (hpos : ∀ x ∈ st.smoothed_spectrum, 0 ≤ x)
    (hsens : 0 ≤ st.sensitivity) :
    (∀ n i, (silentStep^[n + 1] st).smoothed_spectrum.getD i 0 =
      smoothing * (silentStep^[n] st).smoothed_spectrum.getD i 0) ∧
    (∀ n i, 0 ≤ (silentStep^[n] st).smoothed_spectrum.getD i 0) ∧
    (∀ n i, (silentStep^[n + 1] st).smoothed_spectrum.getD i 0 ≤
      (silentStep^[n] st).smoothed_spectrum.getD i 0) ∧
    (∀ i, Filter.Tendsto
      (fun n => (silentStep^[n] st).smoothed_spectrum.getD i 0)
      Filter.atTop (nhds 0)) ∧
    (∀ n, (silentStep^[n + 2] st).energy =
      smoothing * (silentStep^[n + 1] st).energy) ∧
    (∀ n, 0 ≤ (silentStep^[n + 1] st).energy) ∧
    (∀ n, (silentStep^[n + 2] st).energy ≤ (silentStep^[n + 1] st).energy) ∧
    Filter.Tendsto (fun n => (silentStep^[n + 1] st).energy)
      Filter.atTop (nhds 0) := by
  have h08 : (0:ℝ) ≤ smoothing := by
    rw [show smoothing = 0.8 from rfl]; norm_num
  have h81 : smoothing < 1 := by
    rw [show smoothing = 0.8 from rfl]; norm_num
  have h811 : smoothing ≤ 1 := le_of_lt h81
  have entry : ∀ n i, (silentStep^[n] st).smoothed_spectrum.getD i 0 =
      st.smoothed_spectrum.getD i 0 * smoothing ^ n := by
    intro n i
    rw [(silent_iterate st hlen n).1, getD_map_mul]
  have ha : ∀ i, 0 ≤ st.smoothed_spectrum.getD i 0 := getD_nonneg _ hpos
  have hE := silent_energy st hlen
  have hE0 : 0 ≤ energyOf st.smoothed_spectrum st.sensitivity :=
    energyOf_nonneg _ _ hpos hsens
  refine ⟨?_, ?_, ?_, ?_, ?_, ?_, ?_, ?_⟩
  · intro n i
    rw [entry, entry, pow_succ]
    ring
  · intro n i
    rw [entry]
    exact mul_nonneg (ha i) (pow_nonneg h08 n)
  · intro n i
    rw [entry, entry]
    exact mul_le_mul_of_nonneg_left
      (pow_le_pow_of_le_one h08 h811 (Nat.le_succ n)) (ha i)
  · intro i
    have t := (tendsto_pow_atTop_nhds_zero_of_lt_one h08 h81).const_mul
      (st.smoothed_spectrum.getD i 0)
    rw [mul_zero] at t
    exact (Filter.tendsto_congr fun n => entry n i).mpr t
  · intro n
    rw [hE, hE, pow_succ]
    ring
  · intro n
    rw [hE]
    exact mul_nonneg (pow_nonneg h08 _) hE0
  · intro n
    rw [hE, hE]
    exact mul_le_mul_of_nonneg_right
      (pow_le_pow_of_le_one h08 h811 (Nat.succ_le_succ (Nat.le_succ n))) hE0
  · have t := tendsto_pow_atTop_nhds_zero_of_lt_one h08 h81
    have t2 := (t.mul_const smoothing).mul_const
      (energyOf st.smoothed_spectrum st.sensitivity)
    simp only [zero_mul] at t2
    have t3 := t2.congr fun n => by rw [← pow_succ]
    exact (Filter.tendsto_congr fun n => hE n).mpr t3

/-- Witness for C9 at the startup state (zero spectrum, sensitivity 1,
zero energy): the first fed frame's energy is non-negative and the entry
scaling law holds concretely. -/
theorem silence_decays_witness :
    0 ≤ (silentStep^[0 + 1]
      (⟨List.replicate (CHUNK / 2) 0, 1, 0⟩ : AudioState)).energy ∧
    (silentStep^[1 + 1]
        (⟨List.replicate (CHUNK / 2) 0, 1, 0⟩ : AudioState)).smoothed_spectrum.getD 5 0 =
      smoothing * (silentStep^[1]
        (⟨List.replicate (CHUNK / 2) 0, 1, 0⟩ : AudioState)).smoothed_spectrum.getD 5 0 := by
  have h := silence_decays ⟨List.replicate (CHUNK / 2) 0, 1, 0⟩ (by simp)
    (fun x hx => by rw [List.eq_of_mem_replicate hx]) zero_le_one
  exact ⟨h.2.2.2.2.2.1 0, h.1 1 5⟩
